import Mathlib

/-!
Shallow embedding of `src/dataGenerator/excel_generator.py` (class
`SimpleExcelWriter`) and proofs about it.

Modelling conventions:
* Python strings are Lean `String`s; the chained `str.replace` calls of
  `_escape_xml` are modelled by `replaceChar` (all the patterns in the source
  are single characters, for which Python `str.replace` replaces every
  occurrence).
* Python scalar cell values are modelled by `CellValue`.  Floating-point
  values are represented by the text `str()` produces for them, since the
  writer only ever uses that text.  Booleans are a separate constructor, but
  `isNumeric` classifies them as numeric because Python `bool` is a subclass
  of `int`, so `isinstance(cell_value, (int, float))` is `True` for them.
* The filesystem effects of `save()` are modelled by an explicit `FS` state
  and a list of `SaveStep`s executed in order; any step may fail (an oracle
  `ok : Nat → Bool` says which step indices succeed), in which case execution
  stops with the state reached so far, mirroring an uncaught Python exception.
-/

namespace ExcelGen

/-- The apostrophe character, written via its code point. -/
def apos : Char := Char.ofNat 39

/-- Python scalar cell values as used by the writer.
`f` carries the decimal text that Python `str()` renders for the float. -/
inductive CellValue where
  | s (v : String)
  | i (v : Int)
  | f (reprText : String)
  | b (v : Bool)
  deriving DecidableEq

/-- Python `str()` on a cell value.  `str` of an `int` is its decimal form
(with a leading `-` when negative), which coincides with `toString` on `Int`;
`str(True) = "True"`, `str(False) = "False"`. -/
def pyStr : CellValue → String
  | .s v => v
  | .i v => toString v
  | .f t => t
  | .b true => "True"
  | .b false => "False"

/-- `isinstance(cell_value, (int, float))` from line 120 of the source.
Booleans satisfy it because `bool` is a subclass of `int` in Python. -/
def isNumeric : CellValue → Bool
  | .s _ => false
  | .i _ => true
  | .f _ => true
  | .b _ => true

/-- Replace every occurrence of the character `c` by `rep`; this is Python
`str.replace` for a single-character pattern (such patterns cannot overlap,
so leftmost-first replacement is exactly a character-wise expansion). -/
def replaceChar (c : Char) (rep : List Char) : List Char → List Char
  | [] => []
  | x :: t => if x = c then rep ++ replaceChar c rep t else x :: replaceChar c rep t

/-- `SimpleExcelWriter._escape_xml` (source lines 132-134): the five chained
`replace` calls, in source order (`&`, `<`, `>`, `"`, `'`). -/
def escape_xml (s : String) : String :=
  ⟨replaceChar apos "&apos;".data
    (replaceChar '"' "&quot;".data
      (replaceChar '>' "&gt;".data
        (replaceChar '<' "&lt;".data
          (replaceChar '&' "&amp;".data s.data))))⟩

/-- The per-character expansion the escape chain amounts to. -/
def escMapChar (c : Char) : List Char :=
  if c = '&' then "&amp;".data
  else if c = '<' then "&lt;".data
  else if c = '>' then "&gt;".data
  else if c = '"' then "&quot;".data
  else if c = apos then "&apos;".data
  else [c]

theorem replaceChar_append (c : Char) (r : List Char) (a b : List Char) :
    replaceChar c r (a ++ b) = replaceChar c r a ++ replaceChar c r b := by
  induction a with
  | nil => rfl
  | cons x t ih =>
      simp only [List.cons_append, replaceChar, ih]
      by_cases hx : x = c <;> simp [hx, List.append_assoc, ih]

theorem replaceChar_eq_flat (c : Char) (r : List Char) (l : List Char) :
    replaceChar c r l = l.flatMap (fun x => if x = c then r else [x]) := by
  induction l with
  | nil => rfl
  | cons x t ih =>
      simp only [replaceChar, ih, List.flatMap_cons]
      by_cases hx : x = c <;> simp [hx]

/-- The sequential replace chain of `_escape_xml` is exactly the
character-wise expansion `escMapChar`: earlier replacements never produce
characters that later replacements rewrite (in particular the `&` written by
`&lt;` etc. is introduced only after the `&` pass has already run). -/
theorem escape_xml_data (s : String) :
    (escape_xml s).data = s.data.flatMap escMapChar := by
  show replaceChar apos "&apos;".data
      (replaceChar '"' "&quot;".data
        (replaceChar '>' "&gt;".data
          (replaceChar '<' "&lt;".data
            (replaceChar '&' "&amp;".data s.data)))) = s.data.flatMap escMapChar
  simp only [replaceChar_eq_flat, List.flatMap_assoc]
  apply List.flatMap_congr
  intro x _
  by_cases h1 : x = '&'
  · subst h1; decide
  by_cases h2 : x = '<'
  · subst h2; decide
  by_cases h3 : x = '>'
  · subst h3; decide
  by_cases h4 : x = '"'
  · subst h4; decide
  by_cases h5 : x = apos
  · subst h5; decide
  simp [h1, h2, h3, h4, h5, escMapChar]

/-- Recognise one of the five predefined XML entities right after a `&`:
returns the decoded character and the rest of the input. -/
def entHead (t : List Char) : Option (Char × List Char) :=
  if t.take 4 = ['a', 'm', 'p', ';'] then some ('&', t.drop 4)
  else if t.take 3 = ['l', 't', ';'] then some ('<', t.drop 3)
  else if t.take 3 = ['g', 't', ';'] then some ('>', t.drop 3)
  else if t.take 5 = ['q', 'u', 'o', 't', ';'] then some ('"', t.drop 5)
  else if t.take 5 = ['a', 'p', 'o', 's', ';'] then some (Char.ofNat 39, t.drop 5)
  else none

theorem entHead_some_length {t : List Char} {p : Char × List Char}
    (h : entHead t = some p) : p.2.length ≤ t.length := by
  unfold entHead at h
  split_ifs at h
  all_goals first
    | (injection h with h2; subst h2; simp only [List.length_drop]; omega)
    | exact Option.noConfusion h

/-- Standard XML entity unescaping, modelled from the spec sentence "when
unescaped by a standard XML parser": the five predefined entities of XML
(`amp`, `lt`, `gt`, `quot`, `apos`) are decoded after a `&`; any other
character (including a bare `&`) is passed through unchanged. -/
def unescape (l : List Char) : List Char :=
  match l with
  | [] => []
  | c :: t =>
    if c = '&' then
      match h : entHead t with
      | some p => p.1 :: unescape p.2
      | none => c :: unescape t
    else c :: unescape t
termination_by l.length
decreasing_by
  · have := entHead_some_length h
    simp only [List.length_cons]
    omega
  · simp
  · simp

theorem unescape_nil : unescape [] = [] := by
  rw [unescape]

theorem unescape_cons_ne_amp (x : Char) (hx : x ≠ '&') (t : List Char) :
    unescape (x :: t) = x :: unescape t := by
  rw [unescape, if_neg hx]

theorem unescape_amp (t : List Char) {p : Char × List Char}
    (h : entHead t = some p) :
    unescape ('&' :: t) = p.1 :: unescape p.2 := by
  rw [unescape, if_pos rfl]
  split <;> simp_all

theorem entHead_amp_ent (r : List Char) :
    entHead ('a' :: 'm' :: 'p' :: ';' :: r) = some ('&', r) := rfl

theorem entHead_lt_ent (r : List Char) :
    entHead ('l' :: 't' :: ';' :: r) = some ('<', r) := rfl

theorem entHead_gt_ent (r : List Char) :
    entHead ('g' :: 't' :: ';' :: r) = some ('>', r) := rfl

theorem entHead_quot_ent (r : List Char) :
    entHead ('q' :: 'u' :: 'o' :: 't' :: ';' :: r) = some ('"', r) := rfl

theorem entHead_apos_ent (r : List Char) :
    entHead ('a' :: 'p' :: 'o' :: 's' :: ';' :: r) = some (Char.ofNat 39, r) := rfl

/-- Unescaping inverts the character-wise escape expansion. -/
theorem unescape_flatMap (l : List Char) :
    unescape (l.flatMap escMapChar) = l := by
  induction l with
  | nil => simpa using unescape_nil
  | cons x t ih =>
      rw [List.flatMap_cons]
      by_cases h1 : x = '&'
      · subst h1
        have he : escMapChar '&' = ['&', 'a', 'm', 'p', ';'] := by decide
        rw [he]
        simp only [List.cons_append, List.nil_append]
        rw [unescape_amp _ (entHead_amp_ent _), ih]
      by_cases h2 : x = '<'
      · subst h2
        have he : escMapChar '<' = ['&', 'l', 't', ';'] := by decide
        rw [he]
        simp only [List.cons_append, List.nil_append]
        rw [unescape_amp _ (entHead_lt_ent _), ih]
      by_cases h3 : x = '>'
      · subst h3
        have he : escMapChar '>' = ['&', 'g', 't', ';'] := by decide
        rw [he]
        simp only [List.cons_append, List.nil_append]
        rw [unescape_amp _ (entHead_gt_ent _), ih]
      by_cases h4 : x = '"'
      · subst h4
        have he : escMapChar '"' = ['&', 'q', 'u', 'o', 't', ';'] := by decide
        rw [he]
        simp only [List.cons_append, List.nil_append]
        rw [unescape_amp _ (entHead_quot_ent _), ih]
      by_cases h5 : x = apos
      · subst h5
        have he : escMapChar apos = ['&', 'a', 'p', 'o', 's', ';'] := by decide
        rw [he]
        simp only [List.cons_append, List.nil_append]
        rw [unescape_amp _ (entHead_apos_ent _), ih]
        rfl
      · have he : escMapChar x = [x] := by simp [escMapChar, h1, h2, h3, h4, h5]
        rw [he]
        simp only [List.cons_append, List.nil_append]
        rw [unescape_cons_ne_amp x h1, ih]

/-! ## Cell serializer and worksheet builder -/

/-- `chr(65 + col_idx)` from source lines 110 and 119, used as a one-character
string in the cell coordinate.  (Python `chr` succeeds for any code point
below 0x110000, so for index 26 it silently yields the non-letter `[`.) -/
def colLetter (colIdx : Nat) : String :=
  String.singleton (Char.ofNat (65 + colIdx))

/-- One header cell (source line 111): always an inline string built from
`str(header)`, whatever the header's type. -/
def headerCellXml (colIdx : Nat) (header : CellValue) : String :=
  "<c r=\"" ++ colLetter colIdx ++ "1\" t=\"inlineStr\"><is><t>"
    ++ escape_xml (pyStr header) ++ "</t></is></c>"

/-- One data cell (source lines 118-123): numeric values go to a bare
`<v>` cell with no type attribute, everything else to an inline string. -/
def dataCellXml (rowNum : Nat) (colIdx : Nat) (v : CellValue) : String :=
  if isNumeric v then
    "<c r=\"" ++ colLetter colIdx ++ toString rowNum ++ "\"><v>"
      ++ pyStr v ++ "</v></c>"
  else
    "<c r=\"" ++ colLetter colIdx ++ toString rowNum ++ "\" t=\"inlineStr\"><is><t>"
      ++ escape_xml (pyStr v) ++ "</t></is></c>"

/-- A sheet as stored by `add_sheet`: the dict with keys name/headers/rows. -/
structure Sheet where
  name : String
  headers : List CellValue
  rows : List (List CellValue)
  deriving DecidableEq

/-- The fixed text the worksheet builder emits before the rows
(source lines 103-105). -/
def wsProlog : String :=
  "<?xml version=\"1.0\" encoding=\"UTF-8\" standalone=\"yes\"?>\n<worksheet xmlns=\"http://schemas.openxmlformats.org/spreadsheetml/2006/main\">\n<sheetData>"

/-- The fixed text the worksheet builder emits after the rows
(source lines 126-127). -/
def wsEpilog : String := "</sheetData>\n</worksheet>"

/-- The header-cell loop of `_create_worksheet` (source lines 109-111):
`content` is the accumulated string, `colIdx` the running `enumerate` index. -/
def addHeaderCells (headers : List CellValue) (colIdx : Nat) (content : String) : String :=
  match headers with
  | [] => content
  | h :: rest => addHeaderCells rest (colIdx + 1) (content ++ headerCellXml colIdx h)

/-- The cell loop of one data row (source lines 118-123). -/
def addDataCells (rowNum : Nat) (cells : List CellValue) (colIdx : Nat) (content : String) : String :=
  match cells with
  | [] => content
  | v :: rest => addDataCells rowNum rest (colIdx + 1) (content ++ dataCellXml rowNum colIdx v)

/-- The data-row loop of `_create_worksheet` (source lines 115-124):
each row `rowIdx` (0-based) opens `<row r="rowIdx+2">`, emits its cells,
and closes the row. -/
def addDataRows (rows : List (List CellValue)) (rowIdx : Nat) (content : String) : String :=
  match rows with
  | [] => content
  | row :: rest =>
      addDataRows rest (rowIdx + 1)
        (addDataCells (rowIdx + 2) row 0
          (content ++ "<row r=\"" ++ toString (rowIdx + 2) ++ "\">") ++ "</row>")

/-- `SimpleExcelWriter._create_worksheet` (source lines 101-127), the string
it writes to the worksheet part: prolog, header row `<row r="1">…</row>`,
the data rows, epilog. -/
def create_worksheet (sheet : Sheet) : String :=
  addDataRows sheet.rows 0
    (addHeaderCells sheet.headers 0 (wsProlog ++ "<row r=\"1\">") ++ "</row>")
  ++ wsEpilog

/-- Concatenation of a list of strings. -/
def joinAll (l : List String) : String := l.foldr (· ++ ·) ""

/-- The header cells in order, with their 0-based column indices. -/
def headerCells (headers : List CellValue) (colIdx : Nat) : List String :=
  match headers with
  | [] => []
  | h :: rest => headerCellXml colIdx h :: headerCells rest (colIdx + 1)

/-- The cells of one data row in order, with their 0-based column indices. -/
def dataCells (rowNum : Nat) (cells : List CellValue) (colIdx : Nat) : List String :=
  match cells with
  | [] => []
  | v :: rest => dataCellXml rowNum colIdx v :: dataCells rowNum rest (colIdx + 1)

/-- The header row element of a worksheet. -/
def headerRowXml (headers : List CellValue) : String :=
  "<row r=\"1\">" ++ joinAll (headerCells headers 0) ++ "</row>"

/-- The row element of the data row with 0-based index `rowIdx`. -/
def dataRowXml (rowIdx : Nat) (row : List CellValue) : String :=
  "<row r=\"" ++ toString (rowIdx + 2) ++ "\">"
    ++ joinAll (dataCells (rowIdx + 2) row 0) ++ "</row>"

/-- The data row elements in order, `rowIdx` the 0-based index of the first. -/
def dataRowsXml (rows : List (List CellValue)) (rowIdx : Nat) : List String :=
  match rows with
  | [] => []
  | row :: rest => dataRowXml rowIdx row :: dataRowsXml rest (rowIdx + 1)

/-- All row elements of a worksheet document: the header row followed by one
row element per data row. -/
def rowElems (sheet : Sheet) : List String :=
  headerRowXml sheet.headers :: dataRowsXml sheet.rows 0

theorem joinAll_nil : joinAll [] = "" := rfl

theorem joinAll_cons (s : String) (l : List String) :
    joinAll (s :: l) = s ++ joinAll l := rfl

theorem addHeaderCells_eq (headers : List CellValue) :
    ∀ (i : Nat) (content : String),
      addHeaderCells headers i content = content ++ joinAll (headerCells headers i) := by
  induction headers with
  | nil => intro i content; simp [addHeaderCells, headerCells, joinAll_nil]
  | cons h rest ih =>
      intro i content
      rw [addHeaderCells, headerCells, ih, joinAll_cons, String.append_assoc]

theorem addDataCells_eq (rowNum : Nat) (cells : List CellValue) :
    ∀ (i : Nat) (content : String),
      addDataCells rowNum cells i content = content ++ joinAll (dataCells rowNum cells i) := by
  induction cells with
  | nil => intro i content; simp [addDataCells, dataCells, joinAll_nil]
  | cons v rest ih =>
      intro i content
      rw [addDataCells, dataCells, ih, joinAll_cons, String.append_assoc]

theorem addDataRows_eq (rows : List (List CellValue)) :
    ∀ (i : Nat) (content : String),
      addDataRows rows i content = content ++ joinAll (dataRowsXml rows i) := by
  induction rows with
  | nil => intro i content; simp [addDataRows, dataRowsXml, joinAll_nil]
  | cons row rest ih =>
      intro i content
      rw [addDataRows, dataRowsXml, ih, addDataCells_eq, joinAll_cons, dataRowXml]
      simp only [String.append_assoc]

/-- The string assembled by `_create_worksheet` decomposes into the fixed
prolog, the concatenation of the row elements, and the fixed epilog. -/
theorem create_worksheet_decomp (sheet : Sheet) :
    create_worksheet sheet = wsProlog ++ joinAll (rowElems sheet) ++ wsEpilog := by
  rw [create_worksheet, addDataRows_eq, addHeaderCells_eq, rowElems, joinAll_cons,
    headerRowXml]
  simp only [String.append_assoc]

theorem headerCells_length (headers : List CellValue) :
    ∀ i : Nat, (headerCells headers i).length = headers.length := by
  induction headers with
  | nil => intro i; rfl
  | cons h rest ih => intro i; simp [headerCells, ih]

theorem dataCells_length (rowNum : Nat) (cells : List CellValue) :
    ∀ i : Nat, (dataCells rowNum cells i).length = cells.length := by
  induction cells with
  | nil => intro i; rfl
  | cons v rest ih => intro i; simp [dataCells, ih]

theorem dataRowsXml_length (rows : List (List CellValue)) :
    ∀ i : Nat, (dataRowsXml rows i).length = rows.length := by
  induction rows with
  | nil => intro i; rfl
  | cons row rest ih => intro i; simp [dataRowsXml, ih]

theorem dataRowsXml_getD (rows : List (List CellValue)) :
    ∀ (j i : Nat) (h : i < rows.length),
      (dataRowsXml rows j).getD i "" = dataRowXml (j + i) (rows.get ⟨i, h⟩) := by
  induction rows with
  | nil => intro j i h; exact absurd h (Nat.not_lt_zero i)
  | cons row rest ih =>
      intro j i h
      match i with
      | 0 => simp [dataRowsXml, List.getD]
      | Nat.succ k =>
          have hk : k < rest.length := Nat.lt_of_succ_lt_succ h
          have harith : j + 1 + k = j + (k + 1) := by omega
          simp only [dataRowsXml, List.getD_cons_succ, List.get]
          rw [ih (j + 1) k hk, harith]

/-- C1: for a sheet with `h` headers and `r` data rows the worksheet document
is the fixed prolog, then exactly `r+1` row elements concatenated in order,
then the fixed epilog: row element 0 is `<row r="1">` with exactly `h` header
cells, and for every data row `i` (0-based) row element `i+1` is
`<row r="i+2">` with exactly `len(row_i)` cells in order — ragged rows are
emitted by their own length, unvalidated and unpadded. -/
theorem c1_worksheet_row_structure (sheet : Sheet) :
    create_worksheet sheet = wsProlog ++ joinAll (rowElems sheet) ++ wsEpilog
    ∧ (rowElems sheet).length = sheet.rows.length + 1
    ∧ (rowElems sheet).getD 0 ""
        = "<row r=\"1\">" ++ joinAll (headerCells sheet.headers 0) ++ "</row>"
    ∧ (headerCells sheet.headers 0).length = sheet.headers.length
    ∧ ∀ i : Fin sheet.rows.length,
        (rowElems sheet).getD (i.val + 1) ""
            = "<row r=\"" ++ toString (i.val + 2) ++ "\">"
              ++ joinAll (dataCells (i.val + 2) (sheet.rows.get i) 0) ++ "</row>"
        ∧ (dataCells (i.val + 2) (sheet.rows.get i) 0).length
            = (sheet.rows.get i).length := by
  refine ⟨create_worksheet_decomp sheet, ?_, ?_, headerCells_length _ 0, ?_⟩
  · simp [rowElems, dataRowsXml_length]
  · simp [rowElems, headerRowXml]
  · intro i
    constructor
    · have h0 : (rowElems sheet).getD (i.val + 1) ""
          = (dataRowsXml sheet.rows 0).getD i.val "" := by
        simp [rowElems]
      rw [h0, dataRowsXml_getD sheet.rows 0 i.val i.isLt, dataRowXml]
      simp
    · exact dataCells_length _ _ 0

/-- Number of positions of `l` at which `pat` occurs as a prefix. -/
def countOcc (pat : List Char) (l : List Char) : Nat :=
  match l with
  | [] => 0
  | x :: t => (if pat.isPrefixOf (x :: t) then 1 else 0) + countOcc pat t

/-- C4: escaping a string rewrites exactly the five XML metacharacters to
their predefined entities, and standard XML entity unescaping applied to the
escaped text reproduces the original string — escape then unescape is the
identity on all strings. -/
theorem c4_escape_unescape_roundtrip :
    (∀ s : String, unescape (escape_xml s).data = s.data)
    ∧ escape_xml "&" = "&amp;"
    ∧ escape_xml "<" = "&lt;"
    ∧ escape_xml ">" = "&gt;"
    ∧ escape_xml "\"" = "&quot;"
    ∧ escape_xml (String.singleton apos) = "&apos;"
    ∧ escape_xml ("a&b<c>d\"e" ++ String.singleton apos ++ "f")
        = "a&amp;b&lt;c&gt;d&quot;e&apos;f" := by
  refine ⟨?_, by decide, by decide, by decide, by decide, by decide, by decide⟩
  intro s
  rw [escape_xml_data]
  exact unescape_flatMap s.data

/-- C5: a data cell is a bare numeric `<v>` cell (no type attribute) exactly
when the value is numeric, and an inline-string cell otherwise; in particular
`42` and `3.14` give `<v>42</v>` and `<v>3.14</v>` with no `t` attribute,
while the string `"42"` gives `t="inlineStr"` with text `42`. -/
theorem c5_numeric_vs_text_cells :
    (∀ (rowNum colIdx : Nat) (v : CellValue),
      (isNumeric v = true
        ∧ dataCellXml rowNum colIdx v
            = "<c r=\"" ++ colLetter colIdx ++ toString rowNum ++ "\"><v>"
              ++ pyStr v ++ "</v></c>")
      ∨ (isNumeric v = false
        ∧ dataCellXml rowNum colIdx v
            = "<c r=\"" ++ colLetter colIdx ++ toString rowNum
              ++ "\" t=\"inlineStr\"><is><t>" ++ escape_xml (pyStr v) ++ "</t></is></c>"))
    ∧ dataCellXml 2 0 (CellValue.i 42) = "<c r=\"A2\"><v>42</v></c>"
    ∧ countOcc " t=".data (dataCellXml 2 0 (CellValue.i 42)).data = 0
    ∧ dataCellXml 2 0 (CellValue.f "3.14") = "<c r=\"A2\"><v>3.14</v></c>"
    ∧ countOcc " t=".data (dataCellXml 2 0 (CellValue.f "3.14")).data = 0
    ∧ dataCellXml 2 1 (CellValue.s "42")
        = "<c r=\"B2\" t=\"inlineStr\"><is><t>42</t></is></c>" := by
  refine ⟨?_, by decide, by decide, by decide, by decide, by decide⟩
  intro rowNum colIdx v
  cases v with
  | s v => exact Or.inr ⟨rfl, rfl⟩
  | i v => exact Or.inl ⟨rfl, rfl⟩
  | f t => exact Or.inl ⟨rfl, rfl⟩
  | b bv => exact Or.inl ⟨rfl, rfl⟩

/-- C2, counterexample: the claim demands that column index 26 either fail
with an explicit error or map to `AA`; the code does neither — `chr(65+26)`
succeeds and silently yields the non-letter `[`. -/
theorem c2_col26_counterexample :
    colLetter 26 = "[" ∧ (colLetter 26 == "AA") = false
      ∧ (colLetter 26 == "A") = false := by decide

/-- C2, amended: indices 0-25 map injectively to the uppercase letters A-Z;
index 26 is neither rejected nor extended to `AA` — the mapping silently
produces the non-letter character `[` (`chr(91)`). -/
theorem c2_col_letter_amended :
    colLetter 0 = "A" ∧ colLetter 25 = "Z"
    ∧ (∀ i : Fin 26, ((colLetter i.val).data.all Char.isUpper) = true)
    ∧ (∀ i j : Fin 26, (colLetter i.val = colLetter j.val) ↔ i = j)
    ∧ colLetter 26 = "["
    ∧ ("[".data.all Char.isUpper) = false := by decide

/-- C8: every header value, of any scalar type, is serialized as an
inline-string cell at coordinate letter+"1", never as a numeric cell. -/
theorem c8_header_always_inline (colIdx : Nat) (header : CellValue) :
    headerCellXml colIdx header
        = "<c r=\"" ++ colLetter colIdx ++ "1\" t=\"inlineStr\"><is><t>"
          ++ escape_xml (pyStr header) ++ "</t></is></c>"
    ∧ (∀ body : String,
        headerCellXml colIdx header
          ≠ "<c r=\"" ++ colLetter colIdx ++ "1\"><v>" ++ body ++ "</v></c>")
    ∧ headerCellXml 0 (CellValue.i 42)
        = "<c r=\"A1\" t=\"inlineStr\"><is><t>42</t></is></c>" := by
  refine ⟨rfl, ?_, by decide⟩
  intro body h
  have h3 := congrArg (fun s => s.data.getD 9 ' ') h
  have e1 : (headerCellXml colIdx header).data.getD 9 ' ' = ' ' := rfl
  have e2 : ("<c r=\"" ++ colLetter colIdx ++ "1\"><v>" ++ body
      ++ "</v></c>").data.getD 9 ' ' = '>' := rfl
  dsimp only at h3
  rw [e1, e2] at h3
  exact absurd h3 (by decide)

theorem numeric_tail_ne_inline_tail (r1 r2 : List Char) :
    "\"><v>".data ++ r1 ≠ "\" t=\"inlineStr\"><is><t>".data ++ r2 := by
  intro h
  have h3 := congrArg (fun l => l.getD 1 ' ') h
  have e1 : ("\"><v>".data ++ r1).getD 1 ' ' = '>' := rfl
  have e2 : ("\" t=\"inlineStr\"><is><t>".data ++ r2).getD 1 ' ' = ' ' := rfl
  dsimp only at h3
  rw [e1, e2] at h3
  exact absurd h3 (by decide)

/-- C10: boolean cell values satisfy the numeric `isinstance` check (Python
`bool` is a subclass of `int`), so they are emitted through the numeric
branch as `<v>True</v>` / `<v>False</v>` with no type attribute, and never as
inline-string cells. -/
theorem c10_bool_cells_numeric (rowNum colIdx : Nat) :
    isNumeric (CellValue.b true) = true
    ∧ isNumeric (CellValue.b false) = true
    ∧ dataCellXml rowNum colIdx (CellValue.b true)
        = "<c r=\"" ++ colLetter colIdx ++ toString rowNum ++ "\"><v>"
          ++ "True" ++ "</v></c>"
    ∧ dataCellXml rowNum colIdx (CellValue.b false)
        = "<c r=\"" ++ colLetter colIdx ++ toString rowNum ++ "\"><v>"
          ++ "False" ++ "</v></c>"
    ∧ ∀ (bv : Bool) (e : String),
        dataCellXml rowNum colIdx (CellValue.b bv)
          ≠ "<c r=\"" ++ colLetter colIdx ++ toString rowNum
            ++ "\" t=\"inlineStr\"><is><t>" ++ e ++ "</t></is></c>" := by
  refine ⟨rfl, rfl, rfl, rfl, ?_⟩
  intro bv e h
  have hb : dataCellXml rowNum colIdx (CellValue.b bv)
      = "<c r=\"" ++ colLetter colIdx ++ toString rowNum ++ "\"><v>"
        ++ pyStr (CellValue.b bv) ++ "</v></c>" := rfl
  rw [hb] at h
  have h2 := congrArg String.data h
  simp only [String.data_append, List.append_assoc] at h2
  rw [List.append_right_inj, List.append_right_inj, List.append_right_inj] at h2
  exact absurd h2 (numeric_tail_ne_inline_tail _ _)

/-! ## Decimal numerals: `Nat.repr` is injective

Worksheet part names embed `str(sheet_num)`; the save-model proofs need the
decimal numerals of distinct sheet numbers to be distinct strings. -/

/-- Decimal digit characters of `n`, most significant first: the reference
function `Nat.toDigitsCore` computes with fuel. -/
def decDigits (n : Nat) : List Char :=
  if h : n < 10 then [Nat.digitChar n]
  else decDigits (n / 10) ++ [Nat.digitChar (n % 10)]
termination_by n
decreasing_by
  exact Nat.div_lt_self (by omega) (by omega)

theorem decDigits_of_lt {n : Nat} (h : n < 10) :
    decDigits n = [Nat.digitChar n] := by
  rw [decDigits, dif_pos h]

theorem decDigits_of_ge {n : Nat} (h : ¬n < 10) :
    decDigits n = decDigits (n / 10) ++ [Nat.digitChar (n % 10)] := by
  conv_lhs => rw [decDigits]
  rw [dif_neg h]

theorem toDigitsCore_eq_decDigits (fuel : Nat) :
    ∀ (n : Nat) (ds : List Char), n < fuel →
      Nat.toDigitsCore 10 fuel n ds = decDigits n ++ ds := by
  induction fuel with
  | zero => intro n ds h; omega
  | succ f ih =>
      intro n ds h
      rw [Nat.toDigitsCore]
      by_cases h0 : n / 10 = 0
      · have hn : n < 10 := by omega
        simp only [h0, if_pos]
        rw [decDigits_of_lt hn, Nat.mod_eq_of_lt hn]
        rfl
      · simp only [h0, if_neg, ite_false]
        rw [ih (n / 10) _ (by omega)]
        rw [decDigits_of_ge (by omega : ¬n < 10)]
        simp [List.append_assoc]

theorem toDigits_eq_decDigits (n : Nat) : Nat.toDigits 10 n = decDigits n := by
  rw [Nat.toDigits, toDigitsCore_eq_decDigits (n + 1) n [] (Nat.lt_succ_self n),
    List.append_nil]

theorem digitChar_inj_lt : ∀ m < 10, ∀ n < 10,
    Nat.digitChar m = Nat.digitChar n → m = n := by decide

theorem decDigits_ne_nil (n : Nat) : decDigits n ≠ [] := by
  rw [decDigits]
  by_cases h : n < 10
  · simp [h]
  · simp [h]

theorem decDigits_inj (m : Nat) : ∀ n, decDigits m = decDigits n → m = n := by
  induction m using Nat.strong_induction_on with
  | _ m ih =>
      intro n h
      by_cases hm : m < 10 <;> by_cases hn : n < 10
      · rw [decDigits_of_lt hm, decDigits_of_lt hn] at h
        injection h with h1 _
        exact digitChar_inj_lt m hm n hn h1
      · rw [decDigits_of_lt hm, decDigits_of_ge hn] at h
        have hlen := congrArg List.length h
        have hpos := List.length_pos.mpr (decDigits_ne_nil (n / 10))
        simp only [List.length_singleton, List.length_append] at hlen
        omega
      · rw [decDigits_of_ge hm, decDigits_of_lt hn] at h
        have hlen := congrArg List.length h
        have hpos := List.length_pos.mpr (decDigits_ne_nil (m / 10))
        simp only [List.length_singleton, List.length_append] at hlen
        omega
      · rw [decDigits_of_ge hm, decDigits_of_ge hn] at h
        have hrev := congrArg List.reverse h
        simp only [List.reverse_append, List.reverse_cons, List.reverse_nil,
          List.nil_append, List.cons_append] at hrev
        injection hrev with hd htl
        have hmod : m % 10 = n % 10 :=
          digitChar_inj_lt (m % 10) (Nat.mod_lt m (by omega)) (n % 10)
            (Nat.mod_lt n (by omega)) hd
        have hdiv : m / 10 = n / 10 := by
          apply ih (m / 10) (Nat.div_lt_self (by omega) (by omega))
          exact List.reverse_injective htl
        omega

/-- Distinct naturals have distinct decimal numerals. -/
theorem natToString_inj {m n : Nat} (h : toString m = toString n) : m = n := by
  have h2 : Nat.toDigits 10 m = Nat.toDigits 10 n := congrArg String.data h
  rw [toDigits_eq_decDigits, toDigits_eq_decDigits] at h2
  exact decDigits_inj m n h2

/-! ## Workbook packager: `add_sheet` and `save` -/

/-- `SimpleExcelWriter`: target filename plus the ordered sheet list. -/
structure Workbook where
  filename : String
  sheets : List Sheet
  deriving DecidableEq

/-- `SimpleExcelWriter.add_sheet` (source lines 18-24): append one sheet
dict to `self.sheets`. -/
def add_sheet (wb : Workbook) (name : String) (headers : List CellValue)
    (rows : List (List CellValue)) : Workbook :=
  { wb with sheets := wb.sheets ++ [{ name := name, headers := headers, rows := rows }] }

/-- `temp_dir = f"{self.filename}_temp"` (source line 29). -/
def tempDirOf (filename : String) : String := filename ++ "_temp"

/-- The five `os.makedirs` targets (source lines 30-34). -/
def stagingDirs (td : String) : List String :=
  [td, td ++ "/_rels", td ++ "/xl", td ++ "/xl/_rels", td ++ "/xl/worksheets"]

/-- `_create_content_types` content (source lines 64-73): a constant string;
it overrides the workbook part and worksheet part 1 only. -/
def contentTypesXml : String :=
  "<?xml version=\"1.0\" encoding=\"UTF-8\" standalone=\"yes\"?>\n<Types xmlns=\"http://schemas.openxmlformats.org/package/2006/content-types\">\n<Default Extension=\"rels\" ContentType=\"application/vnd.openxmlformats-package.relationships+xml\"/>\n<Default Extension=\"xml\" ContentType=\"application/xml\"/>\n<Override PartName=\"/xl/workbook.xml\" ContentType=\"application/vnd.openxmlformats-officedocument.spreadsheetml.sheet.main+xml\"/>\n<Override PartName=\"/xl/worksheets/sheet1.xml\" ContentType=\"application/vnd.openxmlformats-officedocument.spreadsheetml.worksheet+xml\"/>\n</Types>"

/-- `_create_main_rels` content (source lines 75-81): a constant string. -/
def mainRelsXml : String :=
  "<?xml version=\"1.0\" encoding=\"UTF-8\" standalone=\"yes\"?>\n<Relationships xmlns=\"http://schemas.openxmlformats.org/package/2006/relationships\">\n<Relationship Id=\"rId1\" Type=\"http://schemas.openxmlformats.org/officeDocument/2006/relationships/officeDocument\" Target=\"xl/workbook.xml\"/>\n</Relationships>"

/-- `_create_workbook` content (source lines 83-91): a constant string
declaring exactly one sheet entry named "Sheet1". -/
def workbookXml : String :=
  "<?xml version=\"1.0\" encoding=\"UTF-8\" standalone=\"yes\"?>\n<workbook xmlns=\"http://schemas.openxmlformats.org/spreadsheetml/2006/main\" xmlns:r=\"http://schemas.openxmlformats.org/officeDocument/2006/relationships\">\n<sheets>\n<sheet name=\"Sheet1\" sheetId=\"1\" r:id=\"rId1\"/>\n</sheets>\n</workbook>"

/-- `_create_workbook_rels` content (source lines 93-99): a constant string
with exactly one relationship, to `worksheets/sheet1.xml`. -/
def workbookRelsXml : String :=
  "<?xml version=\"1.0\" encoding=\"UTF-8\" standalone=\"yes\"?>\n<Relationships xmlns=\"http://schemas.openxmlformats.org/package/2006/relationships\">\n<Relationship Id=\"rId1\" Type=\"http://schemas.openxmlformats.org/officeDocument/2006/relationships/worksheet\" Target=\"worksheets/sheet1.xml\"/>\n</Relationships>"

/-- The four descriptor parts by their path relative to the staging root,
in the order `save` writes them (source lines 36-46). -/
def descriptorRels : List (String × String) :=
  [("[Content_Types].xml", contentTypesXml),
   ("_rels/.rels", mainRelsXml),
   ("xl/workbook.xml", workbookXml),
   ("xl/_rels/workbook.xml.rels", workbookRelsXml)]

/-- The four descriptor parts with absolute staging paths. -/
def descriptorParts (td : String) : List (String × String) :=
  descriptorRels.map fun p => (td ++ "/" ++ p.1, p.2)

/-- `f"xl/worksheets/sheet{sheet_num}.xml"` (source line 129), relative to
the staging root. -/
def worksheetRel (n : Nat) : String :=
  "xl/worksheets/sheet" ++ toString n ++ ".xml"

/-- The worksheet parts written by the loop at source lines 49-50:
the sheet at 0-based position `i` becomes part number `i+1`. -/
def worksheetParts (td : String) : List Sheet → Nat → List (String × String)
  | [], _ => []
  | s :: rest, i =>
      (td ++ "/" ++ worksheetRel (i + 1), create_worksheet s)
        :: worksheetParts td rest (i + 1)

/-- The archive entries of the staging tree, by path relative to the staging
root, in the order the model keeps the files. -/
def wsEntries : List Sheet → Nat → List (String × String)
  | [], _ => []
  | s :: rest, i => (worksheetRel (i + 1), create_worksheet s) :: wsEntries rest (i + 1)

/-- One filesystem-visible step of `save` (source lines 26-62). -/
inductive SaveStep where
  | mkdirs
  | writePart (path content : String)
  | makeZip
  | cleanup
  deriving DecidableEq

/-- The step sequence `save` performs: create the staging directories, write
the four descriptor parts then one worksheet part per sheet, archive the
staging tree, and finally `shutil.rmtree` the staging tree.  The `rmtree` is
a plain trailing statement — there is no `try`/`finally` in the source, so it
runs only if every earlier step succeeded. -/
def saveSteps (wb : Workbook) : List SaveStep :=
  SaveStep.mkdirs ::
    ((descriptorParts (tempDirOf wb.filename)
        ++ worksheetParts (tempDirOf wb.filename) wb.sheets 0).map
      fun p => SaveStep.writePart p.1 p.2)
    ++ [SaveStep.makeZip, SaveStep.cleanup]

/-- Is `p` a path strictly inside directory `td`? -/
def underDir (td p : String) : Bool := (td ++ "/").data.isPrefixOf p.data

/-- Filesystem state: directories, regular files, and the ZIP archives that
have been produced (archive = target path plus its list of
(entry name, entry content) pairs; the binary ZIP encoding is not modelled). -/
structure FS where
  dirs : List String
  files : List (String × String)
  zips : List (String × List (String × String))
  deriving DecidableEq

/-- Writing a file replaces any previous file at the same path. -/
def FS.writeFile (fs : FS) (p c : String) : FS :=
  { fs with files := fs.files.filter (fun q => q.1 != p) ++ [(p, c)] }

/-- The ZIP entries produced from all files under the staging root `td`,
named by path relative to `td` (`os.walk` + `os.path.relpath`,
source lines 53-58). -/
def zipEntries (td : String) (files : List (String × String)) : List (String × String) :=
  (files.filter fun q => underDir td q.1).map
    fun q => (⟨q.1.data.drop (td.data.length + 1)⟩, q.2)

/-- Effect of one save step on the filesystem. -/
def applyStep (filename : String) (fs : FS) : SaveStep → FS
  | .mkdirs => { fs with dirs := fs.dirs ++ stagingDirs (tempDirOf filename) }
  | .writePart p c => fs.writeFile p c
  | .makeZip =>
      { fs with zips := fs.zips ++ [(filename, zipEntries (tempDirOf filename) fs.files)] }
  | .cleanup =>
      let td := tempDirOf filename
      { fs with
          dirs := fs.dirs.filter fun d => !(d == td || underDir td d),
          files := fs.files.filter fun q => !(underDir td q.1) }

/-- Run steps in order; step number `n` succeeds iff `ok n`.  A failing step
has no effect and aborts the run (the Python exception propagates out of
`save`), returning `false`. -/
def runSteps (filename : String) (ok : Nat → Bool) :
    List SaveStep → Nat → FS → FS × Bool
  | [], _, fs => (fs, true)
  | s :: rest, n, fs =>
      if ok n then runSteps filename ok rest (n + 1) (applyStep filename fs s)
      else (fs, false)

/-- `SimpleExcelWriter.save` as a state transformer: the final filesystem
plus whether the call returned normally. -/
def runSave (wb : Workbook) (ok : Nat → Bool) (fs : FS) : FS × Bool :=
  runSteps wb.filename ok (saveSteps wb) 0 fs

theorem runSteps_all_ok (filename : String) (ok : Nat → Bool)
    (hok : ∀ n, ok n = true) :
    ∀ (l : List SaveStep) (n : Nat) (fs : FS),
      runSteps filename ok l n fs = (l.foldl (applyStep filename) fs, true) := by
  intro l
  induction l with
  | nil => intro n fs; rfl
  | cons s rest ih =>
      intro n fs
      rw [runSteps, hok n, if_pos rfl, ih (n + 1), List.foldl_cons]

theorem runSteps_fail_at (filename : String) (k : Nat) :
    ∀ (l : List SaveStep) (n : Nat) (fs : FS), n ≤ k → k < n + l.length →
      runSteps filename (fun m => decide (m < k)) l n fs
        = (l.take (k - n) |>.foldl (applyStep filename) fs, false) := by
  intro l
  induction l with
  | nil => intro n fs h1 h2; simp at h2; omega
  | cons s rest ih =>
      intro n fs h1 h2
      rw [runSteps]
      by_cases hnk : n < k
      · rw [if_pos (by simpa using hnk)]
        rw [ih (n + 1) _ (by omega) (by simp at h2 ⊢; omega)]
        have htake : (s :: rest).take (k - n) = s :: rest.take (k - (n + 1)) := by
          have : k - n = (k - (n + 1)) + 1 := by omega
          rw [this, List.take_succ_cons]
        rw [htake, List.foldl_cons]
      · have : n = k := by omega
        rw [if_neg (by simpa using hnk)]
        subst this
        simp

theorem saveSteps_decomp (wb : Workbook) :
    saveSteps wb
      = (SaveStep.mkdirs ::
          ((descriptorParts (tempDirOf wb.filename)
              ++ worksheetParts (tempDirOf wb.filename) wb.sheets 0).map
            fun p => SaveStep.writePart p.1 p.2)
          ++ [SaveStep.makeZip]) ++ [SaveStep.cleanup] := by
  rw [saveSteps]
  simp [List.append_assoc]

theorem applyStep_writePart_dirs (filename : String) (fs : FS) (p c : String) :
    (applyStep filename fs (SaveStep.writePart p c)).dirs = fs.dirs := rfl

theorem applyStep_writePart_zips (filename : String) (fs : FS) (p c : String) :
    (applyStep filename fs (SaveStep.writePart p c)).zips = fs.zips := rfl

theorem foldl_writes (filename : String) (ps : List (String × String)) :
    ∀ fs : FS,
      (hdisj : ∀ p ∈ ps, ∀ q ∈ fs.files, q.1 ≠ p.1) →
      (hnodup : (ps.map Prod.fst).Nodup) →
      (ps.map fun p => SaveStep.writePart p.1 p.2).foldl (applyStep filename) fs
        = { fs with files := fs.files ++ ps } := by
  induction ps with
  | nil => intro fs _ _; simp
  | cons p t ih =>
      intro fs hdisj hnodup
      rw [List.map_cons, List.foldl_cons]
      have hw : applyStep filename fs (SaveStep.writePart p.1 p.2)
          = { fs with files := fs.files ++ [p] } := by
        show fs.writeFile p.1 p.2 = _
        rw [FS.writeFile]
        have : fs.files.filter (fun q => q.1 != p.1) = fs.files := by
          rw [List.filter_eq_self]
          intro q hq
          simpa using hdisj p (by simp) q hq
        simp only [this]
      rw [hw]
      rw [ih { fs with files := fs.files ++ [p] } ?_ ?_]
      · simp [List.append_assoc]
      · intro p2 hp2 q hq
        rcases List.mem_append.mp hq with hq1 | hq2
        · exact hdisj p2 (by simp [hp2]) q hq1
        · have hqp : q = p := by simpa using hq2
          intro hcontra
          have hnd : (p.1 :: t.map Prod.fst).Nodup := by
            rw [← List.map_cons]; exact hnodup
          apply (List.nodup_cons.mp hnd).1
          exact List.mem_map.mpr ⟨p2, hp2, by rw [← hcontra, hqp]⟩
      · have hnd : (p.1 :: t.map Prod.fst).Nodup := by
          rw [← List.map_cons]; exact hnodup
        exact (List.nodup_cons.mp hnd).2

theorem isPrefixOf_append_self (a b : List Char) :
    a.isPrefixOf (a ++ b) = true := by
  induction a with
  | nil => simp [List.isPrefixOf]
  | cons x t ih => simpa [List.isPrefixOf] using ih

theorem underDir_partPath (td rel : String) :
    underDir td (td ++ "/" ++ rel) = true := by
  show ((td ++ "/").data.isPrefixOf (td ++ "/" ++ rel).data) = true
  rw [String.data_append (td ++ "/") rel]
  exact isPrefixOf_append_self _ _

theorem str_data_inj {s t : String} (h : s.data = t.data) : s = t := by
  cases s with
  | mk d1 =>
      cases t with
      | mk d2 => exact congrArg String.mk h

theorem dropPrefix_partPath (td rel : String) :
    (td ++ "/" ++ rel).data.drop (td.data.length + 1) = rel.data := by
  rw [String.data_append (td ++ "/") rel]
  exact List.drop_left' (by simp [String.data_append])

theorem partPath_inj {td a b : String} (h : td ++ "/" ++ a = td ++ "/" ++ b) :
    a = b := by
  have h2 := congrArg String.data h
  simp only [String.data_append, List.append_assoc] at h2
  rw [List.append_right_inj, List.append_right_inj] at h2
  exact str_data_inj h2

theorem worksheetRel_inj {m n : Nat} (h : worksheetRel m = worksheetRel n) :
    m = n := by
  have h2 := congrArg String.data h
  simp only [worksheetRel, String.data_append, List.append_assoc] at h2
  rw [List.append_right_inj, List.append_left_inj] at h2
  exact natToString_inj (str_data_inj h2)

theorem worksheetRel_ne_contentTypes (k : Nat) :
    worksheetRel k ≠ "[Content_Types].xml" := by
  intro h
  have h3 := congrArg (fun s => s.data.getD 0 ' ') h
  have e1 : (worksheetRel k).data.getD 0 ' ' = 'x' := rfl
  dsimp only at h3
  rw [e1] at h3
  exact absurd h3 (by decide)

theorem worksheetRel_ne_mainRels (k : Nat) :
    worksheetRel k ≠ "_rels/.rels" := by
  intro h
  have h3 := congrArg (fun s => s.data.getD 0 ' ') h
  have e1 : (worksheetRel k).data.getD 0 ' ' = 'x' := rfl
  dsimp only at h3
  rw [e1] at h3
  exact absurd h3 (by decide)

theorem worksheetRel_ne_workbook (k : Nat) :
    worksheetRel k ≠ "xl/workbook.xml" := by
  intro h
  have h3 := congrArg (fun s => s.data.getD 7 ' ') h
  have e1 : (worksheetRel k).data.getD 7 ' ' = 's' := rfl
  dsimp only at h3
  rw [e1] at h3
  exact absurd h3 (by decide)

theorem worksheetRel_ne_workbookRels (k : Nat) :
    worksheetRel k ≠ "xl/_rels/workbook.xml.rels" := by
  intro h
  have h3 := congrArg (fun s => s.data.getD 3 ' ') h
  have e1 : (worksheetRel k).data.getD 3 ' ' = 'w' := rfl
  dsimp only at h3
  rw [e1] at h3
  exact absurd h3 (by decide)

theorem worksheetRel_ne_descriptorRel (k : Nat) {d : String}
    (hd : d ∈ descriptorRels.map Prod.fst) : worksheetRel k ≠ d := by
  simp only [descriptorRels, List.map_cons, List.map_nil, List.mem_cons,
    List.mem_singleton, List.not_mem_nil] at hd
  rcases hd with h | h | h | h | h
  · exact h ▸ worksheetRel_ne_contentTypes k
  · exact h ▸ worksheetRel_ne_mainRels k
  · exact h ▸ worksheetRel_ne_workbook k
  · exact h ▸ worksheetRel_ne_workbookRels k
  · exact h.elim

theorem worksheetParts_fst_mem (td : String) :
    ∀ (sheets : List Sheet) (i : Nat) (p : String),
      p ∈ (worksheetParts td sheets i).map Prod.fst →
        ∃ k, k < sheets.length ∧ p = td ++ "/" ++ worksheetRel (i + k + 1) := by
  intro sheets
  induction sheets with
  | nil => intro i p hp; simp [worksheetParts] at hp
  | cons s rest ih =>
      intro i p hp
      rw [worksheetParts, List.map_cons] at hp
      rcases List.mem_cons.mp hp with h | h
  
      · exact ⟨0, by simp, by simpa using h⟩
      · obtain ⟨k, hk, hkeq⟩ := ih (i + 1) p h
        exact ⟨k + 1, by simpa using hk, by rw [hkeq]; congr 2; omega⟩

theorem worksheetParts_fst_nodup (td : String) :
    ∀ (sheets : List Sheet) (i : Nat),
      ((worksheetParts td sheets i).map Prod.fst).Nodup := by
  intro sheets
  induction sheets with
  | nil => intro i; simp [worksheetParts]
  | cons s rest ih =>
      intro i
      rw [worksheetParts, List.map_cons]
      refine List.nodup_cons.mpr ⟨?_, ih (i + 1)⟩
      intro hmem
      obtain ⟨k, _, hkeq⟩ := worksheetParts_fst_mem td rest (i + 1) _ hmem
      have := worksheetRel_inj (partPath_inj hkeq)
      omega

theorem partPath_ne {td a b : String} (hab : a ≠ b) :
    td ++ "/" ++ a ≠ td ++ "/" ++ b :=
  fun h => hab (partPath_inj h)

theorem strMk_data (s : String) : (⟨s.data⟩ : String) = s := rfl

theorem descriptorParts_fst_nodup (td : String) :
    ((descriptorParts td).map Prod.fst).Nodup := by
  have hrw : (descriptorParts td).map Prod.fst
      = [td ++ "/" ++ "[Content_Types].xml", td ++ "/" ++ "_rels/.rels",
         td ++ "/" ++ "xl/workbook.xml", td ++ "/" ++ "xl/_rels/workbook.xml.rels"] := rfl
  rw [hrw]
  refine List.nodup_cons.mpr ⟨?_, List.nodup_cons.mpr ⟨?_,
    List.nodup_cons.mpr ⟨?_, List.nodup_singleton _⟩⟩⟩
  · intro hmem
    rcases List.mem_cons.mp hmem with h | hmem2
    · exact partPath_ne (by decide) h
    rcases List.mem_cons.mp hmem2 with h | hmem3
    · exact partPath_ne (by decide) h
    rcases List.mem_cons.mp hmem3 with h | hmem4
    · exact partPath_ne (by decide) h
    · simp at hmem4
  · intro hmem
    rcases List.mem_cons.mp hmem with h | hmem2
    · exact partPath_ne (by decide) h
    rcases List.mem_cons.mp hmem2 with h | hmem3
    · exact partPath_ne (by decide) h
    · simp at hmem3
  · intro hmem
    rcases List.mem_cons.mp hmem with h | hmem2
    · exact partPath_ne (by decide) h
    · simp at hmem2

theorem descriptorParts_fst_mem {td : String} {x : String}
    (hx : x ∈ (descriptorParts td).map Prod.fst) :
    ∃ d ∈ descriptorRels.map Prod.fst, x = td ++ "/" ++ d := by
  rw [descriptorParts, List.map_map] at hx
  obtain ⟨p, hp, hpe⟩ := List.mem_map.mp hx
  exact ⟨p.1, List.mem_map_of_mem Prod.fst hp, hpe.symm⟩

theorem parts_fst_nodup (td : String) (sheets : List Sheet) :
    ((descriptorParts td ++ worksheetParts td sheets 0).map Prod.fst).Nodup := by
  rw [List.map_append]
  refine List.Nodup.append (descriptorParts_fst_nodup td)
    (worksheetParts_fst_nodup td sheets 0) ?_
  intro x hx hy
  obtain ⟨k, _, hkeq⟩ := worksheetParts_fst_mem td sheets 0 x hy
  obtain ⟨d, hd, hdeq⟩ := descriptorParts_fst_mem hx
  have : d = worksheetRel (0 + k + 1) := partPath_inj (hdeq.symm.trans hkeq)
  exact worksheetRel_ne_descriptorRel (0 + k + 1) hd this.symm

theorem worksheetParts_mem (td : String) :
    ∀ (sheets : List Sheet) (i : Nat) (q : String × String),
      q ∈ worksheetParts td sheets i →
        ∃ k, ∃ hk : k < sheets.length,
          q = (td ++ "/" ++ worksheetRel (i + k + 1),
               create_worksheet (sheets.get ⟨k, hk⟩)) := by
  intro sheets
  induction sheets with
  | nil => intro i q hq; simp [worksheetParts] at hq
  | cons s rest ih =>
      intro i q hq
      rw [worksheetParts] at hq
      rcases List.mem_cons.mp hq with h | h
      · exact ⟨0, by simp, by simpa using h⟩
      · obtain ⟨k, hk, hkeq⟩ := ih (i + 1) q h
        refine ⟨k + 1, by simpa using hk, ?_⟩
        rw [hkeq]
        have : i + 1 + k + 1 = i + (k + 1) + 1 := by omega
        rw [this]
        rfl

theorem parts_under (td : String) (sheets : List Sheet) :
    ∀ q ∈ descriptorParts td ++ worksheetParts td sheets 0,
      underDir td q.1 = true := by
  intro q hq
  rcases List.mem_append.mp hq with h | h
  · obtain ⟨p, _, hpe⟩ := List.mem_map.mp h
    rw [← hpe]
    exact underDir_partPath td p.1
  · obtain ⟨k, hk, hkeq⟩ := worksheetParts_mem td sheets 0 q h
    rw [hkeq]
    exact underDir_partPath td _

theorem zipEntries_append (td : String) (a b : List (String × String)) :
    zipEntries td (a ++ b) = zipEntries td a ++ zipEntries td b := by
  simp [zipEntries, List.filter_append]

theorem zipEntries_of_clean {td : String} {files : List (String × String)}
    (h : ∀ q ∈ files, underDir td q.1 = false) :
    zipEntries td files = [] := by
  rw [zipEntries]
  have : files.filter (fun q => underDir td q.1) = [] := by
    rw [List.filter_eq_nil_iff]
    intro q hq
    simp [h q hq]
  rw [this, List.map_nil]

theorem zipEntries_descriptor (td : String) :
    zipEntries td (descriptorParts td) = descriptorRels := by
  rw [zipEntries]
  have hf : (descriptorParts td).filter (fun q => underDir td q.1)
      = descriptorParts td := by
    rw [List.filter_eq_self]
    intro q hq
    obtain ⟨p, _, hpe⟩ := List.mem_map.mp hq
    rw [← hpe]
    exact underDir_partPath td p.1
  rw [hf, descriptorParts, List.map_map]
  have hpt : ∀ p ∈ descriptorRels,
      ((fun q : String × String => ((⟨q.1.data.drop (td.data.length + 1)⟩ : String), q.2))
        ∘ fun p : String × String => (td ++ "/" ++ p.1, p.2)) p = p := by
    intro p _
    simp only [Function.comp_apply, dropPrefix_partPath, strMk_data]
  rw [List.map_congr_left hpt]
  exact List.map_id' descriptorRels

theorem zipEntries_worksheet (td : String) :
    ∀ (sheets : List Sheet) (i : Nat),
      zipEntries td (worksheetParts td sheets i) = wsEntries sheets i := by
  intro sheets
  induction sheets with
  | nil => intro i; rfl
  | cons s rest ih =>
      intro i
      rw [worksheetParts, wsEntries]
      have hone : zipEntries td [(td ++ "/" ++ worksheetRel (i + 1), create_worksheet s)]
          = [(worksheetRel (i + 1), create_worksheet s)] := by
        have hu : underDir td (td ++ "/" ++ worksheetRel (i + 1)) = true :=
          underDir_partPath td _
        rw [zipEntries]
        have hfil : [(td ++ "/" ++ worksheetRel (i + 1), create_worksheet s)].filter
            (fun q => underDir td q.1)
            = [(td ++ "/" ++ worksheetRel (i + 1), create_worksheet s)] := by
          rw [List.filter_eq_self]
          intro q hq
          have hq2 : q = (td ++ "/" ++ worksheetRel (i + 1), create_worksheet s) := by
            simpa using hq
          rw [hq2]
          exact hu
        rw [hfil, List.map_cons, List.map_nil, dropPrefix_partPath, strMk_data]
      have hcons : (td ++ "/" ++ worksheetRel (i + 1), create_worksheet s)
            :: worksheetParts td rest (i + 1)
          = [(td ++ "/" ++ worksheetRel (i + 1), create_worksheet s)]
            ++ worksheetParts td rest (i + 1) := rfl
      rw [hcons, zipEntries_append, ih, hone]
      rfl

theorem applyStep_dirs_mono (filename : String) (fs : FS) (s : SaveStep)
    (hs : s ≠ SaveStep.cleanup) {d : String} (hd : d ∈ fs.dirs) :
    d ∈ (applyStep filename fs s).dirs := by
  cases s with
  | mkdirs => exact List.mem_append_left _ hd
  | writePart p c => exact hd
  | makeZip => exact hd
  | cleanup => exact absurd rfl hs

theorem foldl_dirs_mono (filename : String) :
    ∀ (l : List SaveStep) (fs : FS), (∀ s ∈ l, s ≠ SaveStep.cleanup) →
      ∀ d ∈ fs.dirs, d ∈ (l.foldl (applyStep filename) fs).dirs := by
  intro l
  induction l with
  | nil => intro fs _ d hd; exact hd
  | cons s rest ih =>
      intro fs hall d hd
      rw [List.foldl_cons]
      exact ih _ (fun s2 hs2 => hall s2 (List.mem_cons_of_mem s hs2)) d
        (applyStep_dirs_mono filename fs s (hall s (List.mem_cons_self s rest)) hd)

theorem saveSteps_foldl_cleanup (wb : Workbook) (fs : FS) :
    (saveSteps wb).foldl (applyStep wb.filename) fs
      = applyStep wb.filename
          ((SaveStep.mkdirs ::
              ((descriptorParts (tempDirOf wb.filename)
                  ++ worksheetParts (tempDirOf wb.filename) wb.sheets 0).map
                fun p => SaveStep.writePart p.1 p.2)
              ++ [SaveStep.makeZip]).foldl (applyStep wb.filename) fs)
          SaveStep.cleanup := by
  rw [saveSteps_decomp wb, List.foldl_append]
  rfl

/-- C3, amended: when every step succeeds, `save` removes the staging
directory (and everything under it) before returning; but when any step after
staging creation fails — any part write, the archiving, anything before the
trailing `shutil.rmtree` — `save` aborts by propagating the exception and the
staging directory remains on disk, because the source has no `try`/`finally`
around the cleanup. -/
theorem c3_staging_cleanup_amended (wb : Workbook) (fs : FS) (ok : Nat → Bool)
    (hok : ∀ n, ok n = true) :
    (runSave wb ok fs).2 = true
    ∧ (∀ d ∈ (runSave wb ok fs).1.dirs,
        d ≠ tempDirOf wb.filename ∧ underDir (tempDirOf wb.filename) d = false)
    ∧ (∀ q ∈ (runSave wb ok fs).1.files,
        underDir (tempDirOf wb.filename) q.1 = false)
    ∧ (∀ k, 1 ≤ k → k + 1 < (saveSteps wb).length →
        (runSave wb (fun m => decide (m < k)) fs).2 = false
        ∧ tempDirOf wb.filename ∈ (runSave wb (fun m => decide (m < k)) fs).1.dirs) := by
  have hrun : runSave wb ok fs
      = ((saveSteps wb).foldl (applyStep wb.filename) fs, true) :=
    runSteps_all_ok wb.filename ok hok (saveSteps wb) 0 fs
  refine ⟨by rw [hrun], ?_, ?_, ?_⟩
  · intro d hd
    rw [hrun] at hd
    rw [saveSteps_foldl_cleanup wb fs] at hd
    simp only [applyStep] at hd
    have h2 := (List.mem_filter.mp hd).2
    simp only [Bool.not_eq_eq_eq_not, Bool.not_true, Bool.or_eq_false_iff,
      beq_eq_false_iff_ne] at h2
    exact h2
  · intro q hq
    rw [hrun] at hq
    rw [saveSteps_foldl_cleanup wb fs] at hq
    simp only [applyStep] at hq
    have h2 := (List.mem_filter.mp hq).2
    simpa using h2
  · intro k hk1 hk2
    have hlen : k < 0 + (saveSteps wb).length := by omega
    have hfail := runSteps_fail_at wb.filename k (saveSteps wb) 0 fs (by omega) hlen
    constructor
    · rw [runSave, hfail]
    · rw [runSave, hfail]
      have hsave : saveSteps wb
          = SaveStep.mkdirs ::
              (((descriptorParts (tempDirOf wb.filename)
                  ++ worksheetParts (tempDirOf wb.filename) wb.sheets 0).map
                fun p => SaveStep.writePart p.1 p.2)
              ++ [SaveStep.makeZip, SaveStep.cleanup]) := rfl
      have htake : (saveSteps wb).take (k - 0)
          = SaveStep.mkdirs ::
              (((descriptorParts (tempDirOf wb.filename)
                  ++ worksheetParts (tempDirOf wb.filename) wb.sheets 0).map
                fun p => SaveStep.writePart p.1 p.2)
              ++ [SaveStep.makeZip, SaveStep.cleanup]).take (k - 1) := by
        rw [hsave]
        have : k - 0 = (k - 1) + 1 := by omega
        rw [this, List.take_succ_cons]
      rw [htake, List.foldl_cons]
      apply foldl_dirs_mono
      · intro s hs
        have hlen2 : k - 1 ≤ (((descriptorParts (tempDirOf wb.filename)
            ++ worksheetParts (tempDirOf wb.filename) wb.sheets 0).map
              fun p => SaveStep.writePart p.1 p.2) ++ [SaveStep.makeZip]).length := by
          rw [hsave] at hk2
          simp only [List.length_cons, List.length_append, List.length_map,
            List.length_cons, List.length_nil] at hk2 ⊢
          omega
        have hsplit : (((descriptorParts (tempDirOf wb.filename)
              ++ worksheetParts (tempDirOf wb.filename) wb.sheets 0).map
                fun p => SaveStep.writePart p.1 p.2)
              ++ [SaveStep.makeZip, SaveStep.cleanup])
            = ((((descriptorParts (tempDirOf wb.filename)
              ++ worksheetParts (tempDirOf wb.filename) wb.sheets 0).map
                fun p => SaveStep.writePart p.1 p.2)
              ++ [SaveStep.makeZip]) ++ [SaveStep.cleanup]) := by
          simp [List.append_assoc]
        rw [hsplit] at hs
        rw [List.take_append_eq_append_take] at hs
        rw [Nat.sub_eq_zero_of_le hlen2, List.take_zero, List.append_nil] at hs
        have hs2 := List.take_subset _ _ hs
        rcases List.mem_append.mp hs2 with h | h
        · obtain ⟨p, _, hpe⟩ := List.mem_map.mp h
          rw [← hpe]
          simp
        · have : s = SaveStep.makeZip := by simpa using h
          rw [this]
          simp
      · show tempDirOf wb.filename
          ∈ (applyStep wb.filename fs SaveStep.mkdirs).dirs
        show tempDirOf wb.filename
          ∈ fs.dirs ++ stagingDirs (tempDirOf wb.filename)
        exact List.mem_append_right _ (List.mem_cons_self _ _)

/-- C3, counterexample to the claim as stated: with an empty workbook saved
to `out.xlsx`, if the archiving step (step index 5) fails, `save` returns
abnormally and the staging directory `out.xlsx_temp` is still on disk. -/
theorem c3_staging_leak_counterexample :
    (runSave { filename := "out.xlsx", sheets := [] }
        (fun m => decide (m < 5)) ⟨[], [], []⟩).2 = false
    ∧ tempDirOf "out.xlsx"
        ∈ (runSave { filename := "out.xlsx", sheets := [] }
            (fun m => decide (m < 5)) ⟨[], [], []⟩).1.dirs := by
  constructor
  · decide
  · decide

theorem wsEntries_fst :
    ∀ (sheets : List Sheet) (i : Nat),
      (wsEntries sheets i).map Prod.fst
        = (List.range sheets.length).map (fun k => worksheetRel (i + k + 1)) := by
  intro sheets
  induction sheets with
  | nil => intro i; rfl
  | cons s rest ih =>
      intro i
      rw [wsEntries, List.map_cons, ih (i + 1)]
      rw [List.length_cons, List.range_succ_eq_map, List.map_cons, List.map_map]
      have h0 : i + 0 + 1 = i + 1 := by omega
      rw [h0]
      congr 1
      apply List.map_congr_left
      intro k _
      simp only [Function.comp_apply]
      have hk : i + (k + 1) + 1 = i + 1 + k + 1 := by omega
      rw [hk]

/-- C6: a successful `save` into a clean staging area produces exactly one
archive, whose entry set is the four descriptor parts plus one worksheet part
`xl/worksheets/sheetK.xml` per registered sheet (`K` its 1-based position),
and nothing else; with zero sheets, only the four descriptor parts. -/
theorem c6_zip_entry_set (wb : Workbook) (fs : FS) (ok : Nat → Bool)
    (hok : ∀ n, ok n = true)
    (hclean : ∀ q ∈ fs.files, underDir (tempDirOf wb.filename) q.1 = false) :
    (runSave wb ok fs).1.zips
        = fs.zips ++ [(wb.filename, descriptorRels ++ wsEntries wb.sheets 0)]
    ∧ (descriptorRels ++ wsEntries wb.sheets 0).map Prod.fst
        = ["[Content_Types].xml", "_rels/.rels", "xl/workbook.xml",
           "xl/_rels/workbook.xml.rels"]
          ++ (List.range wb.sheets.length).map
              (fun k => "xl/worksheets/sheet" ++ toString (k + 1) ++ ".xml")
    ∧ (∀ e : String,
        e ∈ (descriptorRels ++ wsEntries wb.sheets 0).map Prod.fst
          ↔ (e ∈ ["[Content_Types].xml", "_rels/.rels", "xl/workbook.xml",
                 "xl/_rels/workbook.xml.rels"]
            ∨ ∃ k, 1 ≤ k ∧ k ≤ wb.sheets.length
                ∧ e = "xl/worksheets/sheet" ++ toString k ++ ".xml")) := by
  have hnames : (descriptorRels ++ wsEntries wb.sheets 0).map Prod.fst
      = ["[Content_Types].xml", "_rels/.rels", "xl/workbook.xml",
         "xl/_rels/workbook.xml.rels"]
        ++ (List.range wb.sheets.length).map
            (fun k => "xl/worksheets/sheet" ++ toString (k + 1) ++ ".xml") := by
    rw [List.map_append, wsEntries_fst wb.sheets 0]
    congr 1
    apply List.map_congr_left
    intro k _
    have h0 : 0 + k + 1 = k + 1 := by omega
    rw [h0]
    rfl
  refine ⟨?_, hnames, ?_⟩
  · have hrun : runSave wb ok fs
        = ((saveSteps wb).foldl (applyStep wb.filename) fs, true) :=
      runSteps_all_ok wb.filename ok hok (saveSteps wb) 0 fs
    have hfl : (saveSteps wb).foldl (applyStep wb.filename) fs
        = applyStep wb.filename (applyStep wb.filename
            (((descriptorParts (tempDirOf wb.filename)
                ++ worksheetParts (tempDirOf wb.filename) wb.sheets 0).map
              fun p => SaveStep.writePart p.1 p.2).foldl (applyStep wb.filename)
                (applyStep wb.filename fs SaveStep.mkdirs))
            SaveStep.makeZip) SaveStep.cleanup := by
      show (SaveStep.mkdirs ::
          (((descriptorParts (tempDirOf wb.filename)
              ++ worksheetParts (tempDirOf wb.filename) wb.sheets 0).map
            fun p => SaveStep.writePart p.1 p.2)
          ++ [SaveStep.makeZip, SaveStep.cleanup])).foldl (applyStep wb.filename) fs = _
      rw [List.foldl_cons, List.foldl_append]
      rfl
    have hwrites := foldl_writes wb.filename
        (descriptorParts (tempDirOf wb.filename)
          ++ worksheetParts (tempDirOf wb.filename) wb.sheets 0)
        (applyStep wb.filename fs SaveStep.mkdirs)
        (by
          intro p hp q hq hqp
          have h1 := hclean q hq
          have h2 := parts_under (tempDirOf wb.filename) wb.sheets p hp
          rw [hqp] at h1
          rw [h1] at h2
          exact Bool.noConfusion h2)
        (parts_fst_nodup (tempDirOf wb.filename) wb.sheets)
    rw [hrun]
    show ((saveSteps wb).foldl (applyStep wb.filename) fs).zips = _
    rw [hfl, hwrites]
    show (applyStep wb.filename fs SaveStep.mkdirs).zips
        ++ [(wb.filename, zipEntries (tempDirOf wb.filename)
              ((applyStep wb.filename fs SaveStep.mkdirs).files
                ++ (descriptorParts (tempDirOf wb.filename)
                    ++ worksheetParts (tempDirOf wb.filename) wb.sheets 0)))] = _
    have hfiles : (applyStep wb.filename fs SaveStep.mkdirs).files = fs.files := rfl
    have hzips : (applyStep wb.filename fs SaveStep.mkdirs).zips = fs.zips := rfl
    rw [hfiles, hzips, zipEntries_append, zipEntries_of_clean hclean,
      zipEntries_append, zipEntries_descriptor, zipEntries_worksheet,
      List.nil_append]
  · intro e
    rw [hnames]
    constructor
    · intro he
      rcases List.mem_append.mp he with h | h
      · exact Or.inl h
      · obtain ⟨k, hk, hke⟩ := List.mem_map.mp h
        have hkr := List.mem_range.mp hk
        exact Or.inr ⟨k + 1, by omega, by omega, hke.symm⟩
    · intro he
      rcases he with h | ⟨k, hk1, hk2, hke⟩
      · exact List.mem_append.mpr (Or.inl h)
      · refine List.mem_append.mpr (Or.inr ?_)
        refine List.mem_map.mpr ⟨k - 1, List.mem_range.mpr (by omega), ?_⟩
        have : k - 1 + 1 = k := by omega
        rw [this, hke]

set_option maxRecDepth 40000 in
/-- C7: the four descriptor parts are the same constant strings however many
sheets are registered and whatever their names (the first five save steps —
staging creation plus the four descriptor writes — do not depend on the sheet
list); the content-types manifest overrides exactly two parts (the workbook
and worksheet part 1 only), the workbook descriptor declares exactly one
sheet entry named "Sheet1" with sheetId 1 and relationship id rId1, and the
workbook relationships hold exactly one relationship, to
`worksheets/sheet1.xml`. -/
theorem c7_descriptor_parts_constant :
    (∀ (filename : String) (sheets1 sheets2 : List Sheet),
      (saveSteps { filename := filename, sheets := sheets1 }).take 5
        = (saveSteps { filename := filename, sheets := sheets2 }).take 5)
    ∧ (∀ td : String, (descriptorParts td).map Prod.snd
        = [contentTypesXml, mainRelsXml, workbookXml, workbookRelsXml])
    ∧ countOcc "<Override ".data contentTypesXml.data = 2
    ∧ countOcc "/xl/worksheets/".data contentTypesXml.data = 1
    ∧ 0 < countOcc "/xl/worksheets/sheet1.xml".data contentTypesXml.data
    ∧ countOcc "<sheet ".data workbookXml.data = 1
    ∧ 0 < countOcc "name=\"Sheet1\"".data workbookXml.data
    ∧ 0 < countOcc "sheetId=\"1\"".data workbookXml.data
    ∧ 0 < countOcc "r:id=\"rId1\"".data workbookXml.data
    ∧ countOcc "<Relationship ".data workbookRelsXml.data = 1
    ∧ 0 < countOcc "Target=\"worksheets/sheet1.xml\"".data workbookRelsXml.data := by
  refine ⟨?_, fun td => rfl, by decide, by decide, by decide, by decide,
    by decide, by decide, by decide, by decide, by decide⟩
  intro filename sheets1 sheets2
  have h4 : ∀ sheets : List Sheet,
      (saveSteps { filename := filename, sheets := sheets }).take 5
        = SaveStep.mkdirs
            :: (descriptorParts (tempDirOf filename)).map
                (fun p => SaveStep.writePart p.1 p.2) := by
    intro sheets
    show (SaveStep.mkdirs ::
        (((descriptorParts (tempDirOf filename)
            ++ worksheetParts (tempDirOf filename) sheets 0).map
          fun p => SaveStep.writePart p.1 p.2)
        ++ [SaveStep.makeZip, SaveStep.cleanup])).take 5 = _
    rw [List.take_succ_cons, List.map_append, List.append_assoc,
      List.take_left' (by rfl :
        ((descriptorParts (tempDirOf filename)).map
          fun p => SaveStep.writePart p.1 p.2).length = 4)]
  rw [h4 sheets1, h4 sheets2]

theorem worksheetParts_getD (td : String) :
    ∀ (sheets : List Sheet) (off i : Nat) (h : i < sheets.length),
      (worksheetParts td sheets off).getD i ("", "")
        = (td ++ "/" ++ worksheetRel (off + i + 1),
           create_worksheet (sheets.get ⟨i, h⟩)) := by
  intro sheets
  induction sheets with
  | nil => intro off i h; exact absurd h (by simp)
  | cons s rest ih =>
      intro off i h
      match i with
      | 0 =>
          show (worksheetParts td (s :: rest) off).getD 0 ("", "") = _
          rw [worksheetParts]
          have harith : off + 0 + 1 = off + 1 := by omega
          rw [harith]
          rfl
      | Nat.succ k =>
          rw [worksheetParts, List.getD_cons_succ]
          rw [ih (off + 1) k (by simpa using h)]
          have harith : off + 1 + k + 1 = off + (k + 1) + 1 := by omega
          rw [harith]
          rfl

theorem getD_append_left {α : Type} (l l2 : List α) (d : α) :
    ∀ i, i < l.length → (l ++ l2).getD i d = l.getD i d := by
  induction l with
  | nil => intro i h; exact absurd h (by simp)
  | cons x t ih =>
      intro i h
      match i with
      | 0 => rfl
      | Nat.succ k =>
          rw [List.cons_append, List.getD_cons_succ, List.getD_cons_succ]
          exact ih k (by simpa using h)

/-- C9: `add_sheet` is a total operation that appends exactly one sheet at
the end of the sheet list, checks nothing (no uniqueness, non-emptiness or
shape validation), leaves previously added sheets unchanged, and `save`
writes one worksheet part per sheet, numbered by 1-based registration
position (`sheetK.xml` for the K-th added sheet). -/
theorem c9_add_sheet_appends (wb : Workbook) (name : String)
    (headers : List CellValue) (rows : List (List CellValue)) :
    (add_sheet wb name headers rows).sheets
        = wb.sheets ++ [{ name := name, headers := headers, rows := rows }]
    ∧ (add_sheet wb name headers rows).sheets.length = wb.sheets.length + 1
    ∧ (add_sheet wb name headers rows).filename = wb.filename
    ∧ (∀ i : Fin wb.sheets.length,
        (add_sheet wb name headers rows).sheets.getD i.val
            { name := "", headers := [], rows := [] }
          = wb.sheets.getD i.val { name := "", headers := [], rows := [] })
    ∧ saveSteps wb
        = SaveStep.mkdirs ::
            ((descriptorParts (tempDirOf wb.filename)
                ++ worksheetParts (tempDirOf wb.filename) wb.sheets 0).map
              fun p => SaveStep.writePart p.1 p.2)
            ++ [SaveStep.makeZip, SaveStep.cleanup]
    ∧ (∀ i : Fin wb.sheets.length,
        (worksheetParts (tempDirOf wb.filename) wb.sheets 0).getD i.val ("", "")
          = (tempDirOf wb.filename ++ "/" ++ worksheetRel (i.val + 1),
             create_worksheet (wb.sheets.get i))) := by
  refine ⟨rfl, by simp [add_sheet], rfl, ?_, rfl, ?_⟩
  · intro i
    exact getD_append_left wb.sheets _ _ i.val i.isLt
  · intro i
    have h := worksheetParts_getD (tempDirOf wb.filename) wb.sheets 0 i.val i.isLt
    rw [h]
    have harith : 0 + i.val + 1 = i.val + 1 := by omega
    rw [harith]

/-- Witness for C3 (amended) at a concrete workbook, oracle and filesystem. -/
theorem c3_staging_cleanup_amended_witness :
    (runSave { filename := "out.xlsx", sheets := [] }
        (fun _ => true) ⟨[], [], []⟩).2 = true
    ∧ (∀ d ∈ (runSave { filename := "out.xlsx", sheets := [] }
          (fun _ => true) ⟨[], [], []⟩).1.dirs,
        d ≠ tempDirOf "out.xlsx" ∧ underDir (tempDirOf "out.xlsx") d = false) := by
  have h := c3_staging_cleanup_amended { filename := "out.xlsx", sheets := [] }
    ⟨[], [], []⟩ (fun _ => true) (fun n => rfl)
  exact ⟨h.1, h.2.1⟩

/-- Witness for C6 at the one-sheet workbook of the spec's end-to-end test:
the archive holds exactly the five legacy entries. -/
theorem c6_zip_entry_set_witness :
    (runSave
        { filename := "out.xlsx",
          sheets := [{ name := "Data",
                       headers := [CellValue.s "A", CellValue.s "B"],
                       rows := [[CellValue.i 1, CellValue.s "x"],
                                [CellValue.i 2, CellValue.s "y"]] }] }
        (fun _ => true) ⟨[], [], []⟩).1.zips
      = [("out.xlsx",
          descriptorRels
            ++ wsEntries [{ name := "Data",
                            headers := [CellValue.s "A", CellValue.s "B"],
                            rows := [[CellValue.i 1, CellValue.s "x"],
                                     [CellValue.i 2, CellValue.s "y"]] }] 0)]
    ∧ (descriptorRels
        ++ wsEntries [{ name := "Data",
                        headers := [CellValue.s "A", CellValue.s "B"],
                        rows := [[CellValue.i 1, CellValue.s "x"],
                                 [CellValue.i 2, CellValue.s "y"]] }] 0).map Prod.fst
      = ["[Content_Types].xml", "_rels/.rels", "xl/workbook.xml",
         "xl/_rels/workbook.xml.rels", "xl/worksheets/sheet1.xml"] := by
  have h := c6_zip_entry_set
    { filename := "out.xlsx",
      sheets := [{ name := "Data",
                   headers := [CellValue.s "A", CellValue.s "B"],
                   rows := [[CellValue.i 1, CellValue.s "x"],
                            [CellValue.i 2, CellValue.s "y"]] }] }
    ⟨[], [], []⟩ (fun _ => true) (fun n => rfl) (by intro q hq; simp at hq)
  refine ⟨by simpa using h.1, ?_⟩
  rw [h.2.1]
  decide

/-- Witness for C8 at a numeric header. -/
theorem c8_header_always_inline_witness :
    headerCellXml 0 (CellValue.i 42)
      = "<c r=\"A1\" t=\"inlineStr\"><is><t>42</t></is></c>" :=
  (c8_header_always_inline 0 (CellValue.i 42)).2.2

/-- Witness for C10 at row 2, column 0. -/
theorem c10_bool_cells_numeric_witness :
    dataCellXml 2 0 (CellValue.b true)
      = "<c r=\"" ++ colLetter 0 ++ toString 2 ++ "\"><v>" ++ "True" ++ "</v></c>" :=
  (c10_bool_cells_numeric 2 0).2.2.1
